import Mathlib

/-!
Verification of the checksystem repository's retrieval-and-chunking core
(`common.py`) and of the score-recording path of `check.py`.

Python strings are embedded as `List Char`; Python ints as `Int`/`Nat`
(chunking parameters are `Nat`, matching the non-negative ranges the
claims quantify over; the retrieval parameter `k` is `Int` because the
claims quantify over negative `k` as well).  All definitions are
translated from the source; third-party library calls (`re`, sklearn's
`TfidfVectorizer`, `cosine_similarity`, numpy's `argsort`, `json.dumps`)
are embedded at the fidelity the claims exercise, with the modelling
choices documented on each definition.
-/

namespace Checksystem

/-- Python whitespace for `str.strip()` and the regex class `\s`, restricted
to the characters that can occur in this development's inputs: ASCII
whitespace and the ideographic space U+3000.  (Python recognises further
Unicode whitespace; none of it occurs in the texts considered here.) -/
def isPyWS (c : Char) : Bool :=
  c == ' ' || c == '\t' || c == '\n' || c == '\r' ||
  c == Char.ofNat 11 || c == Char.ofNat 12 || c == Char.ofNat 0x3000

/-- A Python string is blank when `s.strip()` is empty, i.e. every character
is whitespace. -/
def blankB (s : List Char) : Bool := s.all isPyWS

/-- Left part of Python `str.strip()`: drop leading whitespace. -/
def stripL (s : List Char) : List Char := s.dropWhile isPyWS

/-- Right part of Python `str.strip()`: drop trailing whitespace. -/
def stripR (s : List Char) : List Char := (s.reverse.dropWhile isPyWS).reverse

/-- Python `str.strip()`. -/
def pyStrip (s : List Char) : List Char := stripL (stripR s)

/-- Python `s[-o:]` for `o > 0`: the last `o` characters (the whole list when
it is shorter than `o`). -/
def lastChars (o : Nat) (l : List α) : List α := l.drop (l.length - o)

/-! ## Segmenter: `chunk_text_for_japanese` (common.py lines 178-215) -/

/-- The terminal markers of the regex `(。|！|？|\n)` in common.py line 185. -/
def isTermChar (c : Char) : Bool :=
  c == '。' || c == '！' || c == '？' || c == '\n'

/-- Embedding of `re.split(r"(。|！|？|\n)", text)`: the pieces of `text`
between terminator occurrences, interleaved with the captured one-character
separators, starting and ending with a (possibly empty) text piece. -/
def reSplitKeep : List Char → List (List Char)
  | [] => [[]]
  | c :: rest =>
    if isTermChar c then [] :: [c] :: reSplitKeep rest
    else
      match reSplitKeep rest with
      | [] => [[c]]
      | p :: ps => (c :: p) :: ps

/-- The source's membership test `s in ["。", "！", "？", "\n"]` on a piece
returned by the split: true exactly for the captured separators. -/
def isTermPiece (s : List Char) : Bool :=
  match s with
  | [c] => isTermChar c
  | _ => false

/-- One iteration of the unit-building loop of common.py lines 188-195:
`buf += s`; when `s` is a separator the buffer is emitted as a unit. -/
def buildStep (st : List (List Char) × List Char) (s : List Char) :
    List (List Char) × List Char :=
  if isTermPiece s then (st.1 ++ [st.2 ++ s], []) else (st.1, st.2 ++ s)

/-- The unit list of common.py lines 186-197: rebuild the split pieces into
units each carrying its terminator; a trailing buffer is kept only when it
is non-blank (`if buf.strip()`). -/
def buildUnits (pieces : List (List Char)) : List (List Char) :=
  let st := pieces.foldl buildStep ([], [])
  if blankB st.2 then st.1 else st.1 ++ [st.2]

/-- The sentence units of a text: split at `。！？\n` keeping the marker
attached (common.py lines 183-197). -/
def unitsOf (text : List Char) : List (List Char) :=
  buildUnits (reSplitKeep text)

/-- One iteration of the windowing loop of common.py lines 202-212, on the
state (completed chunks, current buffer).  When the next unit fits, it is
appended to the buffer; otherwise the buffer is emitted stripped when
non-blank (`if cur.strip(): chunks.append(cur.strip())`) and the new buffer
is `cur[-overlap:] + u` when `overlap > 0 and len(cur) > overlap`, else just
`u`. -/
def windowStep (m o : Nat) (st : List (List Char) × List Char) (u : List Char) :
    List (List Char) × List Char :=
  if st.2.length + u.length ≤ m then (st.1, st.2 ++ u)
  else
    ((if blankB st.2 then st.1 else st.1 ++ [pyStrip st.2]),
     if 0 < o ∧ o < st.2.length then lastChars o st.2 ++ u else u)

/-- Embedding of `chunk_text_for_japanese(text, max_chars, overlap)`
(common.py lines 178-215; source defaults are `max_chars=1200`,
`overlap=200`).  The function performs no parameter validation. -/
def chunk_text_for_japanese (text : List Char) (m o : Nat) : List (List Char) :=
  let st := (unitsOf text).foldl (windowStep m o) ([], [])
  if blankB st.2 then st.1 else st.1 ++ [pyStrip st.2]

/-! ## Instrumented windowing

The same loop as `windowStep`, additionally recording for every emitted
chunk the list of sentence units accumulated into its buffer.  This ghost
data is used to state and prove the reconstruction and no-split claims;
`chunkPairs_fst` below shows it projects onto `chunk_text_for_japanese`. -/

/-- Windowing state with ghost data: emitted (chunk, unit-group) pairs, the
current buffer, and the units accumulated into the current buffer. -/
structure WState where
  emitted : List (List Char × List (List Char))
  cur : List Char
  grp : List (List Char)

/-- The windowing step of common.py lines 202-212, carrying unit groups. -/
def wstep (m o : Nat) (st : WState) (u : List Char) : WState :=
  if st.cur.length + u.length ≤ m then
    ⟨st.emitted, st.cur ++ u, st.grp ++ [u]⟩
  else
    ⟨(if blankB st.cur then st.emitted
      else st.emitted ++ [(pyStrip st.cur, st.grp)]),
     (if 0 < o ∧ o < st.cur.length then lastChars o st.cur ++ u else u),
     [u]⟩

/-- Run the instrumented windowing loop over a unit list. -/
def wrun (m o : Nat) (units : List (List Char)) : WState :=
  units.foldl (wstep m o) ⟨[], [], []⟩

/-- The final flush of common.py lines 213-214, carrying unit groups. -/
def wfinish (st : WState) : List (List Char × List (List Char)) :=
  if blankB st.cur then st.emitted else st.emitted ++ [(pyStrip st.cur, st.grp)]

/-- The chunks of `chunk_text_for_japanese text m o`, each paired with the
sentence units whose accumulation produced its buffer. -/
def chunkPairs (text : List Char) (m o : Nat) :
    List (List Char × List (List Char)) :=
  wfinish (wrun m o (unitsOf text))

/-! ## Indexer and Retriever: `build_tfidf_index`, `retrieve_top_k`
(common.py lines 221-238) -/

/-- The regex word class `\w` of the token pattern `(?u)\b\w+\b`, restricted
to the scripts occurring in this repository's texts: ASCII alphanumerics and
underscore, Hiragana, Katakana, and CJK unified ideographs.  Terminal
punctuation (`。！？`), ASCII punctuation and whitespace are not word
characters, matching Python's `re` on these inputs. -/
def isWordChar (c : Char) : Bool :=
  c.isAlphanum || c == '_' ||
  (0x3041 ≤ c.toNat && c.toNat ≤ 0x30FF) ||
  (0x4E00 ≤ c.toNat && c.toNat ≤ 0x9FFF)

/-- Maximal runs of word characters: the matches of `\b\w+\b` in order. -/
def tokenizeAux : List Char → List Char → List (List Char)
  | [], acc => if acc.isEmpty then [] else [acc.reverse]
  | c :: rest, acc =>
    if isWordChar c then tokenizeAux rest (c :: acc)
    else if acc.isEmpty then tokenizeAux rest []
    else acc.reverse :: tokenizeAux rest []

/-- Tokenization of one document under `TfidfVectorizer(analyzer="word",
token_pattern=r"(?u)\b\w+\b")`. -/
def tokenize (s : List Char) : List (List Char) := tokenizeAux s []

/-- Adjacent token pairs joined by a single space: sklearn's bigrams. -/
def bigramsOf : List (List Char) → List (List Char)
  | a :: b :: rest => (a ++ ' ' :: b) :: bigramsOf (b :: rest)
  | _ => []

/-- The terms of one document under `ngram_range=(1, 2)`: all unigrams and
all bigrams. -/
def termsOf (s : List Char) : List (List Char) :=
  let toks := tokenize s
  toks ++ bigramsOf toks

/-- Number of occurrences of a term in a document's term list. -/
def countTerm (t : List Char) (terms : List (List Char)) : Nat :=
  terms.countP (fun x => x = t)

/-- Code-point lexicographic order on strings, as Python's `<` used by
sklearn to sort the fitted vocabulary. -/
def lexLtB : List Char → List Char → Bool
  | [], [] => false
  | [], _ :: _ => true
  | _ :: _, [] => false
  | a :: as, b :: bs =>
    if a.toNat < b.toNat then true
    else if b.toNat < a.toNat then false
    else lexLtB as bs

/-- The fitted vocabulary: the distinct terms of the corpus in sorted order.
The `max_features=50000` cap of common.py line 226 only removes terms when
the corpus has more than 50000 distinct terms; it is inactive for every
corpus considered in this development and is not modelled. -/
def vocabOf (docsTerms : List (List (List Char))) : List (List Char) :=
  (docsTerms.flatten.dedup).insertionSort (fun a b => lexLtB a b = true)

/-- Document frequency of a term: in how many documents it occurs. -/
def dfOf (t : List Char) (docsTerms : List (List (List Char))) : Nat :=
  docsTerms.countP (fun d => d.contains t)

/-- A fitted vectorizer: each vocabulary term with its idf weight. -/
structure Vectorizer where
  pairs : List (List Char × ℚ)

/-- A natural number as a rational, in constructor form (definitionally a
reduced fraction, so kernel evaluation of the index arithmetic works). -/
def qOfNat (n : Nat) : ℚ := ⟨Int.ofNat n, 1, one_ne_zero, Nat.coprime_one_right _⟩

/-- Embedding of `vectorizer.transform([text])`: the term-count of each
vocabulary term scaled by its idf weight.  sklearn additionally
L2-normalises the resulting row; the normaliser is an irrational positive
scalar, so this model preserves which entries are zero and, for the
documents indexed by `build_tfidf_index` (whose rows sklearn normalises to
unit length), the similarity comparisons used below are evaluated only in
situations where they do not depend on the omitted scaling (all claims
either treat the similarity vector as an arbitrary parameter or evaluate it
where every entry is exactly zero). -/
def vectTransform (v : Vectorizer) (text : List Char) : List ℚ :=
  v.pairs.map (fun p => qOfNat (countTerm p.1 (termsOf text)) * p.2)

/-- Embedding of `build_tfidf_index(chunks)` (common.py lines 221-229).
sklearn's idf weight is `ln((1 + n) / (1 + df)) + 1`, an irrational
positive real; it is supplied here as an explicit parameter
`idf : corpus size → document frequency → ℚ`, and every theorem below that
depends on the index holds for an arbitrary such weighting. -/
def build_tfidf_index (chunks : List (List Char)) (idf : Nat → Nat → ℚ) :
    Vectorizer × List (List ℚ) :=
  let docsTerms := chunks.map termsOf
  let v : Vectorizer :=
    ⟨(vocabOf docsTerms).map (fun t => (t, idf chunks.length (dfOf t docsTerms)))⟩
  (v, chunks.map (vectTransform v))

/-- Dot product of two weight vectors, modelling the cosine-similarity row
`cosine_similarity(qv, matrix)[0]` entry for one chunk (see the modelling
note on `vectTransform`). -/
def dotQ (a b : List ℚ) : ℚ := (List.zipWith (· * ·) a b).sum

/-- Ascending argsort of a similarity vector: the indices `0..n-1` sorted by
value.  numpy's `argsort` uses an unstable sort whose tie order on these
inputs coincides with the stable order modelled here. -/
def argsortAsc (sims : List ℚ) : List Nat :=
  (List.range sims.length).insertionSort
    (fun i j => sims.getD i 0 ≤ sims.getD j 0)

/-- `sims.argsort()[::-1]`: descending argsort. -/
def argsortDesc (sims : List ℚ) : List Nat := (argsortAsc sims).reverse

/-- Python `l[:k]` for an arbitrary integer `k`: the first `k` elements when
`k ≥ 0`, everything but the last `|k|` elements when `k < 0`. -/
def pySliceTo (k : Int) (l : List α) : List α :=
  if 0 ≤ k then l.take k.toNat else l.take (l.length - (-k).toNat)

/-- Python `list(range(min(k, n)))` for integer `k` and length `n`. -/
def pyRangeMin (k : Int) (n : Nat) : List Nat :=
  List.range (min k (n : Int)).toNat

/-- Embedding of `retrieve_top_k(query, vectorizer, matrix, chunks, k)`
(common.py lines 232-238).  A query that is blank after stripping returns
the first chunks with their positions; otherwise the chunks are ranked by
descending similarity of the transformed query against the matrix rows. -/
def retrieve_top_k (query : List Char) (v : Vectorizer) (matrix : List (List ℚ))
    (chunks : List (List Char)) (k : Int) : List Nat × List (List Char) :=
  if blankB query then (pyRangeMin k chunks.length, pySliceTo k chunks)
  else
    let qv := vectTransform v query
    let sims := matrix.map (dotQ qv)
    let idx := pySliceTo k (argsortDesc sims)
    (idx, idx.map (fun i => chunks.getD i []))

/-! ## Score parsing: `parse_score_safely` (common.py lines 295-325) and the
score-recording path of `check.py` (lines 144-176) -/

/-- The Python values `parse_score_safely` can receive: JSON-decoded LLM
output (ints, strings, dicts, lists) or raw text.  Floats, booleans and
`null` do not occur in the inputs considered here and are not modelled. -/
inductive PyVal where
  | pyInt : Int → PyVal
  | pyStr : List Char → PyVal
  | pyList : List PyVal → PyVal
  | pyDict : List (List Char × PyVal) → PyVal

/-- Decimal digits of a natural number. -/
def natChars (n : Nat) : List Char := (Nat.toDigits 10 n)

/-- Decimal rendering of an integer. -/
def intChars (n : Int) : List Char :=
  if 0 ≤ n then natChars n.toNat else '-' :: natChars (-n).toNat

/-- JSON string escaping as `json.dumps(..., ensure_ascii=False)` performs
it, for the characters occurring in this development's inputs (other
control characters, which Python renders as `\uXXXX`, do not occur). -/
def jsonEscape : List Char → List Char
  | [] => []
  | c :: rest =>
    (if c = '"' then ['\\', '"']
     else if c = '\\' then ['\\', '\\']
     else if c = '\n' then ['\\', 'n']
     else if c = '\t' then ['\\', 't']
     else if c = '\r' then ['\\', 'r']
     else [c]) ++ jsonEscape rest

mutual

/-- Embedding of `json.dumps(obj, ensure_ascii=False)` with Python's default
separators (`', '` between items, `': '` after keys). -/
def dumps : PyVal → List Char
  | PyVal.pyInt n => intChars n
  | PyVal.pyStr s => '"' :: (jsonEscape s ++ ['"'])
  | PyVal.pyList xs => '[' :: (dumpsItems xs ++ [']'])
  | PyVal.pyDict kvs => '{' :: (dumpsPairs kvs ++ ['}'])

/-- Comma-separated rendering of a JSON array's items. -/
def dumpsItems : List PyVal → List Char
  | [] => []
  | [x] => dumps x
  | x :: y :: rest => dumps x ++ ',' :: ' ' :: dumpsItems (y :: rest)

/-- Comma-separated rendering of a JSON object's key-value pairs. -/
def dumpsPairs : List (List Char × PyVal) → List Char
  | [] => []
  | [(k, v)] => '"' :: (jsonEscape k ++ '"' :: ':' :: ' ' :: dumps v)
  | (k, v) :: p :: rest =>
    '"' :: (jsonEscape k ++ '"' :: ':' :: ' ' :: dumps v) ++
      ',' :: ' ' :: dumpsPairs (p :: rest)

end

/-- Numeric value of an ASCII digit run. -/
def natOfDigits (ds : List Char) : Nat :=
  ds.foldl (fun a c => a * 10 + (c.toNat - ('0').toNat)) 0

/-- Consume an expected literal prefix, returning the rest on success. -/
def eatLit : List Char → List Char → Option (List Char)
  | [], s => some s
  | _, [] => none
  | p :: ps, c :: cs => if c = p then eatLit ps cs else none

/-- Match the regex `"score"\s*:\s*(\d{1,3})` at the head of the input,
returning the captured value.  `\d{1,3}` takes greedily up to three digits;
since nothing follows the group, no backtracking can occur. -/
def matchScoreAt (s : List Char) : Option Nat :=
  match eatLit (('"') :: ('s') :: ('c') :: ('o') :: ('r') :: ('e') :: ('"') :: []) s with
  | none => none
  | some s1 =>
    match eatLit [':'] (s1.dropWhile isPyWS) with
    | none => none
    | some s2 =>
      let s3 := s2.dropWhile isPyWS
      let ds := (s3.takeWhile Char.isDigit).take 3
      if ds.isEmpty then none else some (natOfDigits ds)

/-- Embedding of `re.search(r'"score"\s*:\s*(\d{1,3})', text)`: the leftmost
position where the pattern matches. -/
def searchScore : List Char → Option Nat
  | [] => none
  | s@(_ :: rest) =>
    match matchScoreAt s with
    | some v => some v
    | none => searchScore rest

/-- Match the regex `(\d{1,3})\s*点` at the head of the input.  The greedy
group backtracks from three digits down to one until `\s*点` follows. -/
def matchTenAt (s : List Char) : Option Nat :=
  let tryLen : Nat → Option Nat := fun L =>
    let ds := s.take L
    if ds.length = L ∧ ds.all Char.isDigit then
      match eatLit ['点'] ((s.drop L).dropWhile isPyWS) with
      | some _ => some (natOfDigits ds)
      | none => none
    else none
  match tryLen 3 with
  | some v => some v
  | none =>
    match tryLen 2 with
    | some v => some v
    | none => tryLen 1

/-- Embedding of `re.search(r'(\d{1,3})\s*点', text)`. -/
def searchTen : List Char → Option Nat
  | [] => none
  | s@(_ :: rest) =>
    match matchTenAt s with
    | some v => some v
    | none => searchTen rest

/-- The textual part of `parse_score_safely` (common.py lines 311-325): try
the `"score": N` pattern, and if it is absent or its value falls outside
[0, 100], try the `N点` pattern under the same range check. -/
def parseScoreText (text : List Char) : Option Int :=
  match searchScore text with
  | some iv =>
    if 0 ≤ (iv : Int) ∧ (iv : Int) ≤ 100 then some (iv : Int)
    else fallbackTen text
  | none => fallbackTen text
where
  /-- the second pattern's attempt, shared by both failure paths. -/
  fallbackTen (text : List Char) : Option Int :=
    match searchTen text with
    | some iv =>
      if 0 ≤ (iv : Int) ∧ (iv : Int) ≤ 100 then some (iv : Int) else none
    | none => none

/-- Python `int(v)` on the modelled values: exact for ints, digit strings
with optional sign and surrounding whitespace for strings, and a
`TypeError` (no value) otherwise. -/
def pyToInt : PyVal → Option Int
  | PyVal.pyInt n => some n
  | PyVal.pyStr s =>
    let t := pyStrip s
    let core := if t.headD ' ' = '-' ∨ t.headD ' ' = '+' then t.tail else t
    if core.isEmpty ∨ ¬ core.all Char.isDigit then none
    else if t.headD ' ' = '-' then some (-(natOfDigits core : Int))
    else some (natOfDigits core : Int)
  | _ => none

/-- Python `dict.get(key)` on the modelled dicts. -/
def pyGet (d : List (List Char × PyVal)) (key : List Char) : Option PyVal :=
  match d with
  | [] => none
  | (a, v) :: rest => if a = key then some v else pyGet rest key

/-- The dict branch of `parse_score_safely` (common.py lines 302-309): when
the argument is a dict whose `"score"` value converts with `int()` to a
value in [0, 100], that value; otherwise nothing, and the function falls
through to the textual patterns. -/
def dictScoreOf (x : PyVal) : Option Int :=
  match x with
  | PyVal.pyDict d =>
    match pyGet d (('s') :: ('c') :: ('o') :: ('r') :: ('e') :: []) with
    | none => none
    | some v =>
      match pyToInt v with
      | none => none
      | some iv => if 0 ≤ iv ∧ iv ≤ 100 then some iv else none
  | _ => none

/-- The text `parse_score_safely` searches: the argument itself when it is a
string, otherwise `json.dumps(obj, ensure_ascii=False)` (common.py
line 312). -/
def textOfArg (x : PyVal) : List Char :=
  match x with
  | PyVal.pyStr s => s
  | _ => dumps x

/-- Embedding of `parse_score_safely(obj_or_text)` (common.py lines
295-325). -/
def parse_score_safely (x : PyVal) : Option Int :=
  match dictScoreOf x with
  | some iv => some iv
  | none => parseScoreText (textOfArg x)

/-- The literal `"(出力なし)"` that `check.py` line 160 substitutes for the
LLM output when the model call returned `None`. -/
def renderFallback : List Char := ("(出力なし)").toList

/-- The value stored in the `score` column of the history row (check.py
line 173): the parsed score, or the empty string when parsing yielded
nothing. -/
def historyScoreCell (score : Option Int) : PyVal :=
  match score with
  | some iv => PyVal.pyInt iv
  | none => PyVal.pyStr []

/-- The `score` column value `render` records when
`call_openai_with_context` returned `None` (check.py lines 144-176): with
`llm_text = None` no JSON is parsed, `_render_result_box` receives the
fallback text, and `parse_score_safely` runs on it. -/
def failedCallScoreCell : PyVal :=
  historyScoreCell (parse_score_safely (PyVal.pyStr renderFallback))

/-- Shared shorthand for string literals as character lists. -/
def chars (s : String) : List Char := s.toList

/-- Suffix relation on character lists, used to state that a stripped unit
survives inside a chunk. -/
def IsSfx (a b : List Char) : Prop := ∃ c, b = c ++ a

/-! ## Lemmas about blankness and stripping -/

theorem blankB_append (a b : List Char) :
    blankB (a ++ b) = (blankB a && blankB b) := by
  simp [blankB, List.all_append]

theorem blankB_flatten (L : List (List Char)) :
    blankB L.flatten = L.all blankB := by
  induction L with
  | nil => rfl
  | cons a l ih => simp [List.flatten_cons, blankB_append, ih, List.all_cons]

theorem blankB_reverse (s : List Char) : blankB s.reverse = blankB s := by
  simp [blankB, List.all_reverse]

theorem blankB_stripL (s : List Char) : blankB (stripL s) = blankB s := by
  conv_rhs => rw [← List.takeWhile_append_dropWhile isPyWS s]
  rw [stripL, blankB_append]
  have h : blankB (s.takeWhile isPyWS) = true := by
    simp only [blankB, List.all_eq_true]
    exact fun x hx => List.mem_takeWhile_imp hx
  rw [h, Bool.true_and]

theorem blankB_stripR (s : List Char) : blankB (stripR s) = blankB s := by
  rw [stripR, blankB_reverse, ← blankB_reverse s]
  exact blankB_stripL s.reverse

theorem blankB_pyStrip (s : List Char) : blankB (pyStrip s) = blankB s := by
  rw [pyStrip, blankB_stripL, blankB_stripR]

theorem stripL_eq_nil_of_blank (s : List Char) (h : blankB s = true) :
    stripL s = [] := by
  rw [stripL, List.dropWhile_eq_nil_iff]
  intro x hx
  exact List.all_eq_true.mp h x hx

theorem pyStrip_eq_nil_iff (s : List Char) :
    pyStrip s = [] ↔ blankB s = true := by
  constructor
  · intro h
    have : blankB (pyStrip s) = true := by rw [h]; rfl
    rwa [blankB_pyStrip] at this
  · intro h
    have hR : blankB (stripR s) = true := by rwa [blankB_stripR]
    exact stripL_eq_nil_of_blank _ hR

theorem pyStrip_length_pos (s : List Char) (h : blankB s = false) :
    0 < (pyStrip s).length := by
  rcases Nat.eq_zero_or_pos (pyStrip s).length with h0 | h0
  · exfalso
    have : pyStrip s = [] := List.length_eq_zero.mp h0
    rw [pyStrip_eq_nil_iff] at this
    rw [this] at h
    exact Bool.noConfusion h
  · exact h0

theorem dropWhile_ne_nil_of_not_blank (s : List Char) (h : blankB s = false) :
    s.dropWhile isPyWS ≠ [] := by
  intro hnil
  rw [List.dropWhile_eq_nil_iff] at hnil
  have : blankB s = true := List.all_eq_true.mpr hnil
  rw [this] at h
  exact Bool.noConfusion h

theorem stripR_append (a u : List Char) (h : blankB u = false) :
    stripR (a ++ u) = a ++ stripR u := by
  have hrev : (a ++ u).reverse = u.reverse ++ a.reverse := List.reverse_append a u
  have hne : u.reverse.dropWhile isPyWS ≠ [] := by
    apply dropWhile_ne_nil_of_not_blank
    rwa [blankB_reverse]
  rw [stripR, hrev, List.dropWhile_append]
  rw [if_neg (by simpa [List.isEmpty_iff] using hne)]
  rw [List.reverse_append, List.reverse_reverse, stripR]

theorem pyStrip_sfx_append (a u : List Char) (h : blankB u = false) :
    IsSfx (pyStrip u) (pyStrip (a ++ u)) := by
  simp only [pyStrip]
  rw [stripR_append a u h]
  simp only [stripL]
  rw [List.dropWhile_append]
  by_cases hc : (a.dropWhile isPyWS).isEmpty = true
  · rw [if_pos hc]
    exact ⟨[], rfl⟩
  · rw [if_neg hc]
    refine ⟨a.dropWhile isPyWS ++ (stripR u).takeWhile isPyWS, ?_⟩
    rw [List.append_assoc, List.takeWhile_append_dropWhile]

/-! ## The windowing invariant

`InvW m st done` relates the instrumented windowing state to the list of
units processed so far: the emitted groups followed by the pending group
partition `done`; the buffer is some seed followed by the pending group's
units; blank-buffer states have an empty pending group; pending units are
non-blank; a group containing a unit longer than `m` is that unit alone;
and every emitted chunk is non-blank and is the strip of a seed followed by
its group's units. -/
def InvW (m : Nat) (st : WState) (done : List (List Char)) : Prop :=
  ((st.emitted.map Prod.snd).flatten ++ st.grp = done) ∧
  (∃ seed, st.cur = seed ++ st.grp.flatten) ∧
  (st.grp = [] → st.cur = []) ∧
  (∀ v ∈ st.grp, blankB v = false) ∧
  (∀ v ∈ st.grp, m < v.length → st.grp = [v]) ∧
  (∀ p ∈ st.emitted,
    blankB p.1 = false ∧
    (∃ seed, p.1 = pyStrip (seed ++ p.2.flatten)) ∧
    (∀ v ∈ p.2, m < v.length → p.2 = [v]))

theorem InvW_init (m : Nat) : InvW m ⟨[], [], []⟩ [] := by
  refine ⟨rfl, ⟨[], rfl⟩, fun _ => rfl, ?_, ?_, ?_⟩ <;> simp

theorem not_blank_cur_of_grp_ne_nil {m : Nat} {st : WState}
    {done : List (List Char)} (h : InvW m st done) (hg : st.grp ≠ []) :
    blankB st.cur = false := by
  obtain ⟨h1, ⟨seed, hseed⟩, h3, h4, h5, h6⟩ := h
  obtain ⟨v, hv⟩ := List.exists_mem_of_ne_nil st.grp hg
  rcases hb : blankB st.cur with _ | _
  · rfl
  · exfalso
    rw [hseed, blankB_append, Bool.and_eq_true, blankB_flatten,
      List.all_eq_true] at hb
    have := hb.2 v hv
    rw [h4 v hv] at this
    exact Bool.noConfusion this

theorem wstep_inv {m o : Nat} {st : WState} {done : List (List Char)}
    {u : List Char} (h : InvW m st done) (hu : blankB u = false) :
    InvW m (wstep m o st u) (done ++ [u]) := by
  obtain ⟨h1, ⟨seed, hseed⟩, h3, h4, h5, h6⟩ := h
  by_cases hfit : st.cur.length + u.length ≤ m
  · rw [wstep, if_pos hfit]
    refine ⟨?_, ⟨seed, ?_⟩, ?_, ?_, ?_, h6⟩
    · rw [← h1, List.append_assoc]
    · rw [hseed, List.flatten_append, List.flatten_cons, List.flatten_nil,
        List.append_nil, List.append_assoc]
    · intro hnil
      exact absurd hnil (List.append_ne_nil_of_right_ne_nil _ (by simp))
    · intro v hv
      rcases List.mem_append.mp hv with hv | hv
      · exact h4 v hv
      · rw [List.mem_singleton.mp hv]; exact hu
    · intro v hv hlen
      exfalso
      rcases List.mem_append.mp hv with hv | hv
      · have hg := h5 v hv hlen
        have : v.length ≤ st.cur.length := by
          rw [hseed, hg]
          simp [List.length_append]
        omega
      · rw [List.mem_singleton.mp hv] at hlen
        omega
  · rw [wstep, if_neg hfit]
    by_cases hb : blankB st.cur = true
    · have hg : st.grp = [] := by
        by_contra hg
        rw [not_blank_cur_of_grp_ne_nil ⟨h1, ⟨seed, hseed⟩, h3, h4, h5, h6⟩ hg]
          at hb
        exact Bool.noConfusion hb
      have hc : st.cur = [] := h3 hg
      rw [if_pos hb]
      refine ⟨?_, ⟨[], ?_⟩, ?_, ?_, ?_, h6⟩
      · rw [← h1, hg, List.append_nil]
      · rw [hc]
        simp
      · intro hnil; exact absurd hnil (by simp)
      · intro v hv
        rw [List.mem_singleton.mp hv]; exact hu
      · intro v hv _
        rw [List.mem_singleton.mp hv]
    · rw [if_neg hb]
      refine ⟨?_, ?_, ?_, ?_, ?_, ?_⟩
      · rw [List.map_append, List.flatten_append, ← h1]
        simp [List.append_assoc]
      · refine ⟨if 0 < o ∧ o < st.cur.length then lastChars o st.cur else [],
          ?_⟩
        by_cases hov : 0 < o ∧ o < st.cur.length
        · rw [if_pos hov, if_pos hov]; simp
        · rw [if_neg hov, if_neg hov]; simp
      · intro hnil; exact absurd hnil (by simp)
      · intro v hv
        rw [List.mem_singleton.mp hv]; exact hu
      · intro v hv _
        rw [List.mem_singleton.mp hv]
      · intro p hp
        rcases List.mem_append.mp hp with hp | hp
        · exact h6 p hp
        · rw [List.mem_singleton.mp hp]
          refine ⟨?_, ⟨seed, ?_⟩, ?_⟩
          · rw [blankB_pyStrip]
            exact Bool.eq_false_iff.mpr hb
          · rw [hseed]
          · exact h5

theorem wfoldl_inv (m o : Nat) (units : List (List Char)) :
    ∀ (st : WState) (done : List (List Char)), InvW m st done →
      (∀ u ∈ units, blankB u = false) →
      InvW m (units.foldl (wstep m o) st) (done ++ units) := by
  induction units with
  | nil => intro st done h _; simpa using h
  | cons u us ih =>
    intro st done h hu
    have h' := wstep_inv (o := o) h (hu u (List.mem_cons_self u us))
    have := ih (wstep m o st u) (done ++ [u]) h'
      (fun v hv => hu v (List.mem_cons_of_mem u hv))
    simpa [List.append_assoc] using this

theorem wrun_inv (m o : Nat) (units : List (List Char))
    (hu : ∀ u ∈ units, blankB u = false) :
    InvW m (wrun m o units) units := by
  have := wfoldl_inv m o units ⟨[], [], []⟩ [] (InvW_init m) hu
  simpa [wrun] using this

/-- Summary of what the invariant yields about the finished chunk/group
pairs of a run on non-blank units: the groups partition the unit list in
order, and every chunk is non-blank, of the form `strip(seed ++ group)`,
and singleton on oversized units. -/
theorem chunkPairs_spec (text : List Char) (m o : Nat)
    (hu : ∀ u ∈ unitsOf text, blankB u = false) :
    ((chunkPairs text m o).map Prod.snd).flatten = unitsOf text ∧
    (∀ p ∈ chunkPairs text m o,
      blankB p.1 = false ∧
      (∃ seed, p.1 = pyStrip (seed ++ p.2.flatten)) ∧
      (∀ v ∈ p.2, m < v.length → p.2 = [v])) := by
  have hI := wrun_inv m o (unitsOf text) hu
  obtain ⟨h1, ⟨seed, hseed⟩, h3, h4, h5, h6⟩ := hI
  rw [chunkPairs, wfinish]
  by_cases hb : blankB (wrun m o (unitsOf text)).cur = true
  · have hg : (wrun m o (unitsOf text)).grp = [] := by
      by_contra hg
      rw [not_blank_cur_of_grp_ne_nil ⟨h1, ⟨seed, hseed⟩, h3, h4, h5, h6⟩ hg]
        at hb
      exact Bool.noConfusion hb
    rw [if_pos hb]
    refine ⟨?_, h6⟩
    rw [hg, List.append_nil] at h1
    exact h1
  · rw [if_neg hb]
    refine ⟨?_, ?_⟩
    · rw [List.map_append, List.flatten_append]
      simpa using h1
    · intro p hp
      rcases List.mem_append.mp hp with hp | hp
      · exact h6 p hp
      · rw [List.mem_singleton.mp hp]
        refine ⟨?_, ⟨seed, ?_⟩, ?_⟩
        · rw [blankB_pyStrip]
          exact Bool.eq_false_iff.mpr hb
        · rw [hseed]
        · exact h5

/-! ## Projection of the instrumented loop onto the source loop -/

/-- Forget the ghost groups of an instrumented state. -/
def projW (st : WState) : List (List Char) × List Char :=
  (st.emitted.map Prod.fst, st.cur)

theorem projW_wstep (m o : Nat) (st : WState) (u : List Char) :
    projW (wstep m o st u) = windowStep m o (projW st) u := by
  by_cases hfit : st.cur.length + u.length ≤ m
  · simp [wstep, windowStep, projW, hfit]
  · by_cases hb : blankB st.cur = true
    · simp [wstep, windowStep, projW, hfit, hb]
    · simp [wstep, windowStep, projW, hfit, hb]

theorem projW_foldl (m o : Nat) (units : List (List Char)) :
    ∀ st : WState,
      projW (units.foldl (wstep m o) st) =
        units.foldl (windowStep m o) (projW st) := by
  induction units with
  | nil => intro st; rfl
  | cons u us ih =>
    intro st
    rw [List.foldl_cons, List.foldl_cons, ih, projW_wstep]

/-- The plain chunk list is the first projection of the instrumented
chunk/group pairs. -/
theorem chunkPairs_fst (text : List Char) (m o : Nat) :
    chunk_text_for_japanese text m o = (chunkPairs text m o).map Prod.fst := by
  simp only [chunk_text_for_japanese, chunkPairs, wfinish, wrun]
  have hp : projW ((unitsOf text).foldl (wstep m o) ⟨[], [], []⟩) =
      (unitsOf text).foldl (windowStep m o) ([], []) :=
    projW_foldl m o (unitsOf text) ⟨[], [], []⟩
  have hc := congrArg Prod.snd hp
  have he := congrArg Prod.fst hp
  simp only [projW] at hc he
  rw [← hc, ← he]
  by_cases hb : blankB ((unitsOf text).foldl (wstep m o) ⟨[], [], []⟩).cur = true
  · rw [if_pos hb, if_pos hb]
  · rw [if_neg hb, if_neg hb, List.map_append]
    rfl

/-! ## Lemmas about slicing and ranking -/

theorem range_map_getD (l : List α) (d : α) (m : Nat) (hm : m ≤ l.length) :
    (List.range m).map (fun i => l.getD i d) = l.take m := by
  apply List.ext_getElem
  · simp [List.length_take]
    omega
  · intro i h1 h2
    have hi : i < m := by simpa using h1
    have hil : i < l.length := lt_of_lt_of_le hi hm
    simp [List.getElem_map, List.getElem_range, List.getElem_take,
      List.getD_eq_getElem?_getD, List.getElem?_eq_getElem hil]

theorem take_eq_take_min (l : List α) (k : Nat) :
    l.take k = l.take (min k l.length) := by
  rcases Nat.le_total k l.length with h | h
  · rw [Nat.min_eq_left h]
  · rw [Nat.min_eq_right h, List.take_of_length_le h,
      List.take_of_length_le (Nat.le_refl l.length)]

theorem take_map_range_getD (l : List α) (d : α) (k : Nat) :
    l.take k = (List.range (min k l.length)).map (fun i => l.getD i d) := by
  rw [take_eq_take_min, range_map_getD l d (min k l.length) (Nat.min_le_right k l.length)]

theorem argsortDesc_perm (sims : List ℚ) :
    List.Perm (argsortDesc sims) (List.range sims.length) := by
  exact (List.reverse_perm (argsortAsc sims)).trans
    (List.perm_insertionSort (fun i j => sims.getD i 0 ≤ sims.getD j 0)
      (List.range sims.length))

theorem argsortDesc_nodup (sims : List ℚ) : (argsortDesc sims).Nodup :=
  ((argsortDesc_perm sims).nodup_iff).mpr (List.nodup_range sims.length)

theorem argsortDesc_length (sims : List ℚ) :
    (argsortDesc sims).length = sims.length := by
  rw [(argsortDesc_perm sims).length_eq, List.length_range]

theorem argsortDesc_mem (sims : List ℚ) (i : Nat) (h : i ∈ argsortDesc sims) :
    i < sims.length :=
  List.mem_range.mp (((argsortDesc_perm sims).mem_iff).mp h)

theorem dotQ_zeros (a b : List ℚ) (ha : ∀ x ∈ a, x = 0) : dotQ a b = 0 := by
  induction a generalizing b with
  | nil => simp [dotQ]
  | cons x xs ih =>
    cases b with
    | nil => simp [dotQ]
    | cons y ys =>
      have hx : x = 0 := ha x (List.mem_cons_self x xs)
      have hr := ih ys (fun z hz => ha z (List.mem_cons_of_mem x hz))
      simp only [dotQ, List.zipWith_cons_cons, List.sum_cons] at hr ⊢
      rw [hx, hr, zero_mul, add_zero]

/-! ## Claims about the Segmenter -/

/-- Claim C2 (amended): in `chunk_text_for_japanese`, whenever appending the
next unit would exceed `max_chars`, the buffer is flushed: it is emitted
trimmed as a chunk when it is non-blank (a buffer of only whitespace is
discarded), and the next buffer is seeded with the trailing `overlap`
characters of the flushed buffer followed by the triggering unit when
`overlap > 0` and the flushed buffer is strictly longer than `overlap`, and
with just the triggering unit otherwise — a flushed buffer no longer than
`overlap` contributes nothing to the next buffer. -/
theorem c2_flush_step (m o : Nat) (chunks : List (List Char))
    (cur u : List Char) (h : m < cur.length + u.length) :
    windowStep m o (chunks, cur) u =
      ((if blankB cur then chunks else chunks ++ [pyStrip cur]),
       if 0 < o ∧ o < cur.length then lastChars o cur ++ u else u) := by
  have h' : ¬((chunks, cur).2.length + u.length ≤ m) := by
    show ¬(cur.length + u.length ≤ m)
    omega
  simp only [windowStep, if_neg h']

/-- Witness for C2's amended step description at a concrete flush. -/
theorem c2_flush_step_witness :
    3 < (chars ("ab。")).length + (chars ("cd。")).length ∧
    windowStep 3 1 ([], chars ("ab。")) (chars ("cd。")) =
      ((if blankB (chars ("ab。")) then [] else [pyStrip (chars ("ab。"))]),
       if 0 < 1 ∧ 1 < (chars ("ab。")).length then
         lastChars 1 (chars ("ab。")) ++ chars ("cd。") else chars ("cd。")) :=
  ⟨by decide, c2_flush_step 3 1 [] (chars ("ab。")) (chars ("cd。")) (by decide)⟩

/-- Counterexample to claim C2 as stated: at `max_chars = 4`, `overlap = 3`,
the buffer `"a\n"` (length 2, shorter than the overlap) is flushed by the
unit `"bcd"`, and the next buffer is just `"bcd"` — not the whole flushed
buffer followed by the unit, as the claim requires; end to end, the chunks
of `"a\nbcd"` are `["a", "bcd"]` rather than the claimed `["a", "a\nbcd"]`. -/
theorem c2_counterexample :
    4 < (chars ("a\n")).length + (chars ("bcd")).length ∧
    windowStep 4 3 ([], chars ("a\n")) (chars ("bcd")) =
      ([chars ("a")], chars ("bcd")) ∧
    chars ("bcd") ≠ chars ("a\n") ++ chars ("bcd") ∧
    chunk_text_for_japanese (chars ("a\nbcd")) 4 3 =
      [chars ("a"), chars ("bcd")] ∧
    [chars ("a"), chars ("bcd")] ≠ [chars ("a"), chars ("a\nbcd")] := by
  refine ⟨by decide, by decide, by decide, by decide, by decide⟩

/-- Claim C3: the code performs no validation of the chunking parameters.
With `overlap = 2 ≥ max_chars = 1`, and likewise with `max_chars = 0`,
`chunk_text_for_japanese` silently runs segmentation and returns chunks
instead of rejecting the configuration before segmentation begins, contrary
to the spec's ConfigError requirement. -/
theorem c3_no_validation :
    chunk_text_for_japanese (chars ("ab。cd。")) 1 2 =
      [chars ("ab。"), chars ("b。cd。")] ∧
    chunk_text_for_japanese (chars ("ab。cd。")) 0 0 =
      [chars ("ab。"), chars ("cd。")] := by
  refine ⟨by decide, by decide⟩

/-- Claim C6 (amended): for every text all of whose sentence units are
non-blank, and all parameters `0 < max_chars`, `overlap < max_chars`, every
chunk has positive length after trimming, the chunk list is the projection
of the instrumented chunk/group pairs (so chunks appear in original
document order, each produced from a contiguous group of units), and the
unit groups of the chunks concatenate back to the original unit sequence.
The claim as stated, without the non-blank proviso, fails: a buffer of
whitespace-only units is discarded at a flush (see the counterexample). -/
theorem c6_chunk_invariants (text : List Char) (m o : Nat)
    (hm : 0 < m) (ho : o < m)
    (hu : ∀ u ∈ unitsOf text, blankB u = false) :
    (∀ c ∈ chunk_text_for_japanese text m o, 0 < (pyStrip c).length) ∧
    chunk_text_for_japanese text m o = (chunkPairs text m o).map Prod.fst ∧
    ((chunkPairs text m o).map Prod.snd).flatten = unitsOf text := by
  obtain ⟨hrec, hprops⟩ := chunkPairs_spec text m o hu
  refine ⟨?_, chunkPairs_fst text m o, hrec⟩
  intro c hc
  rw [chunkPairs_fst text m o] at hc
  obtain ⟨p, hp, hpc⟩ := List.mem_map.mp hc
  have hnb := (hprops p hp).1
  rw [hpc] at hnb
  exact pyStrip_length_pos c hnb

/-- Witness for C6 on the spec's own end-to-end example text. -/
theorem c6_chunk_invariants_witness :
    ((0 : Nat) < 10 ∧ (3 : Nat) < 10 ∧
      (∀ u ∈ unitsOf (chars ("これは文です。次の文です。最後の文。")),
        blankB u = false)) ∧
    ((∀ c ∈ chunk_text_for_japanese
        (chars ("これは文です。次の文です。最後の文。")) 10 3,
        0 < (pyStrip c).length) ∧
      chunk_text_for_japanese (chars ("これは文です。次の文です。最後の文。"))
          10 3 =
        (chunkPairs (chars ("これは文です。次の文です。最後の文。")) 10 3).map
          Prod.fst ∧
      ((chunkPairs (chars ("これは文です。次の文です。最後の文。")) 10 3).map
          Prod.snd).flatten =
        unitsOf (chars ("これは文です。次の文です。最後の文。"))) :=
  ⟨⟨by decide, by decide, by decide⟩,
    c6_chunk_invariants (chars ("これは文です。次の文です。最後の文。")) 10 3
      (by decide) (by decide) (by decide)⟩

/-- Counterexample to claim C6 as stated: the non-empty text `"\n"` has the
single (blank) unit `"\n"`, yet with the default valid parameters the chunk
list is empty, so the chunks' units do not concatenate back to the original
unit sequence. -/
theorem c6_counterexample :
    chars ("\n") ≠ [] ∧
    unitsOf (chars ("\n")) = [['\n']] ∧
    chunk_text_for_japanese (chars ("\n")) 1200 200 = [] ∧
    ((chunkPairs (chars ("\n")) 1200 200).map Prod.snd).flatten ≠
      unitsOf (chars ("\n")) := by
  refine ⟨by decide, by decide, by decide, by decide⟩

/-- Claim C7 (amended): for every text all of whose sentence units are
non-blank and valid parameters, a unit longer than `max_chars` is never
split: it forms a chunk group of its own — some chunk's group is exactly
that unit, and that chunk contains the trimmed unit as a contiguous suffix
— and no chunk group mixes it with other units.  The claim as stated fails
only in that the unit appears in the chunk after whitespace trimming, not
byte for byte (see the counterexample). -/
theorem c7_oversized_unit (text : List Char) (m o : Nat)
    (hm : 0 < m) (ho : o < m)
    (hu : ∀ u ∈ unitsOf text, blankB u = false)
    (u : List Char) (hmem : u ∈ unitsOf text) (hlen : m < u.length) :
    (∃ p ∈ chunkPairs text m o, p.2 = [u] ∧ IsSfx (pyStrip u) p.1) ∧
    (∀ p ∈ chunkPairs text m o, u ∈ p.2 → p.2 = [u]) := by
  obtain ⟨hrec, hprops⟩ := chunkPairs_spec text m o hu
  have hsing : ∀ p ∈ chunkPairs text m o, u ∈ p.2 → p.2 = [u] := by
    intro p hp hup
    exact (hprops p hp).2.2 u hup hlen
  refine ⟨?_, hsing⟩
  have humem : u ∈ ((chunkPairs text m o).map Prod.snd).flatten := by
    rw [hrec]; exact hmem
  obtain ⟨g, hg, hug⟩ := List.mem_flatten.mp humem
  obtain ⟨p, hp, hpg⟩ := List.mem_map.mp hg
  have hup : u ∈ p.2 := by rw [hpg]; exact hug
  have hp2 : p.2 = [u] := hsing p hp hup
  refine ⟨p, hp, hp2, ?_⟩
  obtain ⟨seed, hps⟩ := (hprops p hp).2.1
  rw [hp2] at hps
  have hps' : p.1 = pyStrip (seed ++ u) := by
    simpa using hps
  rw [hps']
  exact pyStrip_sfx_append seed u (hu u hmem)

/-- Witness for C7: the 9-character unit of
`"これは長い文です。短い。"` exceeds `max_chars = 5` and lands alone in its
chunk group. -/
theorem c7_oversized_unit_witness :
    ((0 : Nat) < 5 ∧ (2 : Nat) < 5 ∧
      (∀ u ∈ unitsOf (chars ("これは長い文です。短い。")), blankB u = false) ∧
      chars ("これは長い文です。") ∈ unitsOf (chars ("これは長い文です。短い。")) ∧
      5 < (chars ("これは長い文です。")).length) ∧
    ((∃ p ∈ chunkPairs (chars ("これは長い文です。短い。")) 5 2,
        p.2 = [chars ("これは長い文です。")] ∧
        IsSfx (pyStrip (chars ("これは長い文です。"))) p.1) ∧
      (∀ p ∈ chunkPairs (chars ("これは長い文です。短い。")) 5 2,
        chars ("これは長い文です。") ∈ p.2 →
          p.2 = [chars ("これは長い文です。")])) :=
  ⟨⟨by decide, by decide, by decide, by decide, by decide⟩,
    c7_oversized_unit (chars ("これは長い文です。短い。")) 5 2
      (by decide) (by decide) (by decide)
      (chars ("これは長い文です。")) (by decide) (by decide)⟩

/-- Counterexample to claim C7 as stated: in `"ああ\n"` with `max_chars = 1`,
`overlap = 0`, the single unit `"ああ\n"` is longer than `max_chars`, but no
returned chunk contains it intact as a contiguous whole: the only chunk is
its trimmed form `"ああ"`, the trailing newline having been stripped. -/
theorem c7_counterexample :
    unitsOf (chars ("ああ\n")) = [chars ("ああ\n")] ∧
    1 < (chars ("ああ\n")).length ∧
    chunk_text_for_japanese (chars ("ああ\n")) 1 0 = [chars ("ああ")] ∧
    (∀ c ∈ chunk_text_for_japanese (chars ("ああ\n")) 1 0,
      ¬ ∃ pre post, c = pre ++ chars ("ああ\n") ++ post) := by
  refine ⟨by decide, by decide, by decide, ?_⟩
  intro c hc h
  obtain ⟨pre, post, hsplit⟩ := h
  have h3 : chunk_text_for_japanese (chars ("ああ\n")) 1 0 =
      [chars ("ああ")] := by decide
  rw [h3] at hc
  rw [List.mem_singleton.mp hc] at hsplit
  have hlen := congrArg List.length hsplit
  simp [List.length_append, chars] at hlen
  omega

/-! ## Claims about the Retriever -/

/-- Claim C4 (amended): for every query, vectorizer, matrix with one row per
chunk, chunk list, and integer `k ≥ 0`, `retrieve_top_k` returns at most
`min(k, len(chunks))` results, whose indices are distinct elements of
`range(len(chunks))` and select the returned chunk texts consistently; for
`k = 0` it returns an empty pair.  The claim as stated also asserted empty
output for negative `k`, which fails: Python's `[:k]` slicing then drops
only the last `|k|` elements (see the counterexample). -/
theorem c4_retrieve_bounds (query : List Char) (v : Vectorizer)
    (matrix : List (List ℚ)) (chunks : List (List Char)) (k : Int)
    (hlen : matrix.length = chunks.length) (hk : 0 ≤ k) :
    ((retrieve_top_k query v matrix chunks k).1.length ≤
      min k.toNat chunks.length) ∧
    (retrieve_top_k query v matrix chunks k).1.Nodup ∧
    (∀ i ∈ (retrieve_top_k query v matrix chunks k).1, i < chunks.length) ∧
    ((retrieve_top_k query v matrix chunks k).2 =
      (retrieve_top_k query v matrix chunks k).1.map
        (fun i => chunks.getD i [])) ∧
    (k = 0 → (retrieve_top_k query v matrix chunks k).1 = [] ∧
      (retrieve_top_k query v matrix chunks k).2 = []) := by
  have hmin : (min k (chunks.length : Int)).toNat = min k.toNat chunks.length := by
    omega
  by_cases hq : blankB query = true
  · simp only [retrieve_top_k, if_pos hq]
    refine ⟨?_, ?_, ?_, ?_, ?_⟩
    · rw [pyRangeMin, List.length_range, hmin]
    · rw [pyRangeMin]
      exact List.nodup_range _
    · intro i hi
      rw [pyRangeMin] at hi
      have := List.mem_range.mp hi
      rw [hmin] at this
      exact lt_of_lt_of_le this (Nat.min_le_right _ _)
    · show pySliceTo k chunks = _
      rw [pySliceTo, if_pos hk, pyRangeMin, hmin]
      exact take_map_range_getD chunks [] k.toNat
    · intro hk0
      rw [hk0]
      refine ⟨?_, ?_⟩
      · rw [pyRangeMin]
        have : (min (0 : Int) (chunks.length : Int)).toNat = 0 := by omega
        rw [this]
        rfl
      · show pySliceTo 0 chunks = []
        rw [pySliceTo, if_pos (le_refl (0 : Int))]
        rfl
  · simp only [retrieve_top_k, if_neg hq]
    have hslen : (matrix.map (dotQ (vectTransform v query))).length =
        chunks.length := by
      rw [List.length_map, hlen]
    refine ⟨?_, ?_, ?_, trivial, ?_⟩
    · rw [pySliceTo, if_pos hk, List.length_take, argsortDesc_length, hslen]
    · rw [pySliceTo, if_pos hk]
      exact (argsortDesc_nodup _).sublist (List.take_sublist _ _)
    · intro i hi
      rw [pySliceTo, if_pos hk] at hi
      have := argsortDesc_mem _ i (List.mem_of_mem_take hi)
      rwa [hslen] at this
    · intro hk0
      rw [hk0]
      refine ⟨?_, ?_⟩
      · show pySliceTo 0 _ = []
        rw [pySliceTo, if_pos (le_refl (0 : Int))]
        rfl
      · show (pySliceTo 0 _).map _ = []
        rw [pySliceTo, if_pos (le_refl (0 : Int))]
        rfl

/-- Witness for C4 at a concrete scored retrieval. -/
theorem c4_retrieve_bounds_witness :
    (([[1], [2], [3]] : List (List ℚ)).length =
        [chars ("a"), chars ("b"), chars ("c")].length ∧ (0 : Int) ≤ 2) ∧
    (((retrieve_top_k (chars ("q")) ⟨[(chars ("q"), 1)]⟩ [[1], [2], [3]]
        [chars ("a"), chars ("b"), chars ("c")] 2).1.length ≤
      min (2 : Int).toNat [chars ("a"), chars ("b"), chars ("c")].length) ∧
    (retrieve_top_k (chars ("q")) ⟨[(chars ("q"), 1)]⟩ [[1], [2], [3]]
        [chars ("a"), chars ("b"), chars ("c")] 2).1.Nodup ∧
    (∀ i ∈ (retrieve_top_k (chars ("q")) ⟨[(chars ("q"), 1)]⟩ [[1], [2], [3]]
        [chars ("a"), chars ("b"), chars ("c")] 2).1,
      i < [chars ("a"), chars ("b"), chars ("c")].length) ∧
    ((retrieve_top_k (chars ("q")) ⟨[(chars ("q"), 1)]⟩ [[1], [2], [3]]
        [chars ("a"), chars ("b"), chars ("c")] 2).2 =
      (retrieve_top_k (chars ("q")) ⟨[(chars ("q"), 1)]⟩ [[1], [2], [3]]
        [chars ("a"), chars ("b"), chars ("c")] 2).1.map
        (fun i => [chars ("a"), chars ("b"), chars ("c")].getD i [])) ∧
    ((2 : Int) = 0 → (retrieve_top_k (chars ("q")) ⟨[(chars ("q"), 1)]⟩
        [[1], [2], [3]] [chars ("a"), chars ("b"), chars ("c")] 2).1 = [] ∧
      (retrieve_top_k (chars ("q")) ⟨[(chars ("q"), 1)]⟩ [[1], [2], [3]]
        [chars ("a"), chars ("b"), chars ("c")] 2).2 = [])) :=
  ⟨⟨rfl, by decide⟩,
    c4_retrieve_bounds (chars ("q")) ⟨[(chars ("q"), 1)]⟩ [[1], [2], [3]]
      [chars ("a"), chars ("b"), chars ("c")] 2 rfl (by decide)⟩

/-- Counterexample to claim C4 as stated: with the non-blank query `"q"`,
three chunks and `k = -1 ≤ 0`, `retrieve_top_k` returns the two indices
`[2, 1]` — Python's `[:-1]` slice of the descending argsort — not an empty
sequence. -/
theorem c4_counterexample :
    ((-1 : Int) ≤ 0) ∧
    (retrieve_top_k (chars ("q")) ⟨[(chars ("q"), 1)]⟩ [[1], [2], [3]]
        [chars ("a"), chars ("b"), chars ("c")] (-1)).1 = [2, 1] ∧
    ([2, 1] : List Nat) ≠ [] := by
  refine ⟨by decide, ?_, by decide⟩
  have h1 : qOfNat (countTerm (chars ("q")) (termsOf (chars ("q")))) = 1 := by
    decide
  have hq : vectTransform ⟨[(chars ("q"), 1)]⟩ (chars ("q")) = [1] := by
    simp [vectTransform, h1]
  have hsims : ([[1], [2], [3]] : List (List ℚ)).map (dotQ [1]) = [1, 2, 3] := by
    simp [dotQ]
  simp only [retrieve_top_k]
  rw [if_neg (by decide : ¬ blankB (chars ("q")) = true), hq, hsims]
  decide

/-- Claim C5 (amended): for every chunk list and every `k ≥ 0`, a query that
is empty after trimming makes `retrieve_top_k` return the first
`min(k, len(chunks))` chunks in original order, paired index-for-index with
their original positions, with no error.  The claim as stated quantified
over every `k`; for negative `k` the code returns an empty index list but a
non-empty text list (see the counterexample). -/
theorem c5_blank_query (query : List Char) (v : Vectorizer)
    (matrix : List (List ℚ)) (chunks : List (List Char)) (k : Int)
    (hq : blankB query = true) (hk : 0 ≤ k) :
    retrieve_top_k query v matrix chunks k =
      (List.range (min k.toNat chunks.length), chunks.take k.toNat) ∧
    chunks.take k.toNat =
      (List.range (min k.toNat chunks.length)).map
        (fun i => chunks.getD i []) := by
  have hmin : (min k (chunks.length : Int)).toNat = min k.toNat chunks.length := by
    omega
  refine ⟨?_, take_map_range_getD chunks [] k.toNat⟩
  simp only [retrieve_top_k, if_pos hq]
  rw [pyRangeMin, hmin, pySliceTo, if_pos hk]

/-- Witness for C5 at a concrete blank-query retrieval. -/
theorem c5_blank_query_witness :
    (blankB (chars (" ")) = true ∧ (0 : Int) ≤ 2) ∧
    (retrieve_top_k (chars (" ")) ⟨[]⟩ []
        [chars ("a"), chars ("b"), chars ("c")] 2 =
      (List.range (min (2 : Int).toNat
          [chars ("a"), chars ("b"), chars ("c")].length),
        [chars ("a"), chars ("b"), chars ("c")].take (2 : Int).toNat) ∧
    [chars ("a"), chars ("b"), chars ("c")].take (2 : Int).toNat =
      (List.range (min (2 : Int).toNat
          [chars ("a"), chars ("b"), chars ("c")].length)).map
        (fun i => [chars ("a"), chars ("b"), chars ("c")].getD i [])) :=
  ⟨⟨by decide, by decide⟩,
    c5_blank_query (chars (" ")) ⟨[]⟩ []
      [chars ("a"), chars ("b"), chars ("c")] 2 (by decide) (by decide)⟩

/-- Counterexample to claim C5 as stated: with a blank query, three chunks
and `k = -1`, the code returns no indices but two chunk texts — not the
first `min(k, len(chunks))` chunks paired with their indices. -/
theorem c5_counterexample :
    blankB (chars (" ")) = true ∧
    retrieve_top_k (chars (" ")) ⟨[]⟩ []
        [chars ("a"), chars ("b"), chars ("c")] (-1) =
      ([], [chars ("a"), chars ("b")]) ∧
    (([], [chars ("a"), chars ("b")]) :
        List Nat × List (List Char)).1.length ≠
      ([chars ("a"), chars ("b")] : List (List Char)).length := by
  refine ⟨by decide, by decide, by decide⟩

/-! ## Claim about the end-to-end retrieval example (C1) -/

/-- The three-chunk corpus of the spec's end-to-end retrieval example. -/
def corpusC1 : List (List Char) :=
  [chars ("猫が好き"), chars ("犬が好き"), chars ("鳥は嫌い")]

/-- The example's query. -/
def queryC1 : List Char := chars ("猫")

theorem c1_zero_query_vector (idf : Nat → Nat → ℚ) :
    vectTransform (build_tfidf_index corpusC1 idf).1 queryC1 = [0, 0, 0] := by
  have hvoc : vocabOf (corpusC1.map termsOf) =
      [chars ("犬が好き"), chars ("猫が好き"), chars ("鳥は嫌い")] := by decide
  have h1 : countTerm (chars ("犬が好き")) (termsOf queryC1) = 0 := by decide
  have h2 : countTerm (chars ("猫が好き")) (termsOf queryC1) = 0 := by decide
  have h3 : countTerm (chars ("鳥は嫌い")) (termsOf queryC1) = 0 := by decide
  have hz : qOfNat 0 = 0 := by decide
  simp only [build_tfidf_index, vectTransform, hvoc, List.map_cons,
    List.map_nil, h1, h2, h3, hz, zero_mul]

/-- Claim C1 (amended): on the corpus `["猫が好き", "犬が好き", "鳥は嫌い"]`
with query `"猫"` and `k = 2`, and for every idf weighting, the query term
is out of vocabulary — the word tokenizer makes each whole sentence a
single token — so every similarity is zero and the descending argsort
returns `[2, 1]`: the top result is `"鳥は嫌い"`, which does not contain
`"猫"`.  The claim as stated (top result contains `"猫"`, `"鳥は嫌い"`
never first) is exactly reversed by the code. -/
theorem c1_oov_ranking (idf : Nat → Nat → ℚ) :
    retrieve_top_k queryC1 (build_tfidf_index corpusC1 idf).1
        (build_tfidf_index corpusC1 idf).2 corpusC1 2 =
      ([2, 1], [chars ("鳥は嫌い"), chars ("犬が好き")]) ∧
    ('猫' ∉ chars ("鳥は嫌い")) := by
  refine ⟨?_, by decide⟩
  have hsims : (build_tfidf_index corpusC1 idf).2.map
      (dotQ (vectTransform (build_tfidf_index corpusC1 idf).1 queryC1)) =
      [0, 0, 0] := by
    rw [c1_zero_query_vector idf]
    show (corpusC1.map (vectTransform (build_tfidf_index corpusC1 idf).1)).map
        (dotQ [0, 0, 0]) = [0, 0, 0]
    simp only [corpusC1, List.map_cons, List.map_nil]
    rw [dotQ_zeros _ _ (by decide), dotQ_zeros _ _ (by decide),
      dotQ_zeros _ _ (by decide)]
  simp only [retrieve_top_k]
  rw [if_neg (by decide : ¬ blankB queryC1 = true), hsims]
  decide

/-- Witness for C1's amended statement at the concrete idf weighting 1. -/
theorem c1_oov_ranking_witness :
    retrieve_top_k queryC1 (build_tfidf_index corpusC1 (fun _ _ => 1)).1
        (build_tfidf_index corpusC1 (fun _ _ => 1)).2 corpusC1 2 =
      ([2, 1], [chars ("鳥は嫌い"), chars ("犬が好き")]) ∧
    ('猫' ∉ chars ("鳥は嫌い")) :=
  c1_oov_ranking (fun _ _ => 1)

/-- Counterexample to claim C1 as stated, at the concrete idf weighting 1:
the top retrieval result is `"鳥は嫌い"` — ranked first despite having no
lexical overlap with the query — and it does not contain `"猫"`. -/
theorem c1_counterexample :
    (retrieve_top_k queryC1 (build_tfidf_index corpusC1 (fun _ _ => 1)).1
        (build_tfidf_index corpusC1 (fun _ _ => 1)).2 corpusC1 2).2.headD [] =
      chars ("鳥は嫌い") ∧
    ('猫' ∉ (retrieve_top_k queryC1
        (build_tfidf_index corpusC1 (fun _ _ => 1)).1
        (build_tfidf_index corpusC1 (fun _ _ => 1)).2 corpusC1 2).2.headD []) ∧
    (retrieve_top_k queryC1 (build_tfidf_index corpusC1 (fun _ _ => 1)).1
        (build_tfidf_index corpusC1 (fun _ _ => 1)).2 corpusC1 2).1.headD 99 =
      2 := by
  have hsims : (build_tfidf_index corpusC1 (fun _ _ => 1)).2.map
      (dotQ (vectTransform (build_tfidf_index corpusC1 (fun _ _ => 1)).1
        queryC1)) = [0, 0, 0] := by
    rw [c1_zero_query_vector (fun _ _ => 1)]
    show (corpusC1.map (vectTransform
        (build_tfidf_index corpusC1 (fun _ _ => 1)).1)).map (dotQ [0, 0, 0]) =
      [0, 0, 0]
    simp only [corpusC1, List.map_cons, List.map_nil]
    rw [dotQ_zeros _ _ (by decide), dotQ_zeros _ _ (by decide),
      dotQ_zeros _ _ (by decide)]
  have hmain : retrieve_top_k queryC1
      (build_tfidf_index corpusC1 (fun _ _ => 1)).1
      (build_tfidf_index corpusC1 (fun _ _ => 1)).2 corpusC1 2 =
      ([2, 1], [chars ("鳥は嫌い"), chars ("犬が好き")]) := by
    simp only [retrieve_top_k]
    rw [if_neg (by decide : ¬ blankB queryC1 = true), hsims]
    decide
  rw [hmain]
  refine ⟨by decide, by decide, by decide⟩

/-! ## Claims about score parsing and the failure path -/

/-- Claim C8: `parse_score_safely` returns 85 for the dict
`{"score": 85}`, 85 for text containing `85点`, nothing for the dict
`{"score": 150}` (out of range, and its serialization matches no pattern in
range), and nothing for text without a score pattern. -/
theorem c8_score_parsing_examples :
    parse_score_safely (PyVal.pyDict [(chars ("score"), PyVal.pyInt 85)]) =
      some 85 ∧
    parse_score_safely (PyVal.pyStr (chars ("合計 85点 です"))) = some 85 ∧
    parse_score_safely (PyVal.pyDict [(chars ("score"), PyVal.pyInt 150)]) =
      none ∧
    parse_score_safely (PyVal.pyStr (chars ("スコアは高いです"))) = none := by
  refine ⟨by decide, by decide, by decide, by decide⟩

/-- Claim C9: when the model call fails, `render` substitutes the fallback
text `"(出力なし)"`, score parsing yields nothing, and the history row's
score cell is the empty string — no fabricated score is recorded.  (A
history row is still appended; its score cell carries no value.) -/
theorem c9_failed_call_no_score :
    parse_score_safely (PyVal.pyStr renderFallback) = none ∧
    failedCallScoreCell = PyVal.pyStr [] :=
  ⟨by decide, rfl⟩

/-- Claim C10: a dict whose dict branch yields no score in [0, 100] falls
back to the textual patterns applied to the dict's JSON serialization. -/
theorem c10_dict_fallback (d : List (List Char × PyVal))
    (h : dictScoreOf (PyVal.pyDict d) = none) :
    parse_score_safely (PyVal.pyDict d) =
      parseScoreText (dumps (PyVal.pyDict d)) := by
  simp only [parse_score_safely, textOfArg, h]

/-- Witness for C10: the dict `{"summary": "85点"}` has no `score` field at
all, yet parses to 85 via its serialization `{"summary": "85点"}`. -/
theorem c10_dict_fallback_witness :
    dictScoreOf (PyVal.pyDict
        [(chars ("summary"), PyVal.pyStr (chars ("85点")))]) = none ∧
    parse_score_safely (PyVal.pyDict
        [(chars ("summary"), PyVal.pyStr (chars ("85点")))]) =
      parseScoreText (dumps (PyVal.pyDict
        [(chars ("summary"), PyVal.pyStr (chars ("85点")))])) ∧
    parse_score_safely (PyVal.pyDict
        [(chars ("summary"), PyVal.pyStr (chars ("85点")))]) = some 85 :=
  ⟨by decide,
    c10_dict_fallback [(chars ("summary"), PyVal.pyStr (chars ("85点")))]
      (by decide),
    by decide⟩

end Checksystem
